import Mathlib

/-!
Verification of the request-gatekeeping layer of the due-diligence platform:
the sliding-window rate limiter, the input sanitizer, the stock-symbol
validator, the suspicious-pattern detector and the field-validation gate,
shallowly embedded from src/security.py. Strings are modelled as lists of
characters; timestamps as integers (Python float time values enter the logic only
through comparisons and subtraction).
-/

namespace DueDiligence

/-! ## InputSanitizer (SecurityManager.validate_input) -/

/-- The control characters removed by the first sanitation step:
ranges 0x00 to 0x08, 0x0B, 0x0C, 0x0E to 0x1F, and 0x7F
(the character class of the first re.sub in validate_input). -/
def isControlChar (c : Char) : Bool :=
  c.toNat ≤ 8 || c.toNat == 11 || c.toNat == 12 ||
    (14 ≤ c.toNat && c.toNat ≤ 31) || c.toNat == 127

/-- The special characters removed when allow_special_chars is false:
the character class of the second re.sub in validate_input, namely
less-than, greater-than, double quote, single quote, semicolon,
parentheses, ampersand and plus. -/
def specialCharList : List Char :=
  ['<', '>', Char.ofNat 34, Char.ofNat 39, ';', '(', ')', '&', '+']

/-- The characters Python str.strip() removes: the str.isspace set
(ASCII whitespace, the separator controls 0x1C to 0x1F, and the Unicode
space characters). -/
def isPythonSpace (c : Char) : Bool :=
  c.toNat == 32 || (9 ≤ c.toNat && c.toNat ≤ 13) ||
    (28 ≤ c.toNat && c.toNat ≤ 31) ||
    c.toNat == 133 || c.toNat == 160 || c.toNat == 5760 ||
    (8192 ≤ c.toNat && c.toNat ≤ 8202) ||
    c.toNat == 8232 || c.toNat == 8233 || c.toNat == 8239 ||
    c.toNat == 8287 || c.toNat == 12288

/-- Python str.strip(): drop leading and trailing whitespace. -/
def pyStrip (s : List Char) : List Char :=
  ((s.dropWhile isPythonSpace).reverse.dropWhile isPythonSpace).reverse

/-- SecurityManager.validate_input: empty input returns the empty string;
otherwise remove control characters, truncate to max_length when longer,
remove the special characters when allow_special_chars is false, and
strip surrounding whitespace. -/
def validate_input (input_string : List Char) (max_length : ℕ)
    (allow_special_chars : Bool) : List Char :=
  if input_string = [] then []
  else
    let cleaned := input_string.filter (fun c => !isControlChar c)
    let cleaned2 := if max_length < cleaned.length
      then cleaned.take max_length else cleaned
    let cleaned3 := if allow_special_chars then cleaned2
      else cleaned2.filter (fun c => !specialCharList.contains c)
    pyStrip cleaned3

/-! ## SymbolValidator (SecurityManager.validate_symbol) -/

/-- The character class of the symbol regex: ASCII letters and digits. -/
def isAlnumAscii (c : Char) : Bool :=
  (65 ≤ c.toNat && c.toNat ≤ 90) || (97 ≤ c.toNat && c.toNat ≤ 122) ||
    (48 ≤ c.toNat && c.toNat ≤ 57)

/-- SecurityManager.validate_symbol: empty input is invalid; otherwise the
result of Python re.match against the anchored pattern of 1 to 10
alphanumerics. In Python the dollar anchor matches at the end of the
string or just before a newline at the end of the string, so the match
succeeds exactly when the string, possibly after removing one trailing
newline, is 1 to 10 ASCII alphanumerics. -/
def validate_symbol (symbol : List Char) : Bool :=
  if symbol = [] then false
  else
    let body := if symbol.getLast? = some (Char.ofNat 10)
      then symbol.dropLast else symbol
    (decide (1 ≤ body.length) && decide (body.length ≤ 10)) &&
      body.all isAlnumAscii

/-! ## RateLimiter (SecurityManager.rate_limit) -/

/-- The mutable state of SecurityManager: the per-client request timestamp
log (a defaultdict of lists, so an unseen client reads as the empty list)
and the set of blocked client identities. -/
structure SecurityManager where
  rate_limit_storage : String → List ℤ
  blocked_ips : List String

/-- Point update of the timestamp-log map. -/
def updateLog (f : String → List ℤ) (k : String) (v : List ℤ) :
    String → List ℤ :=
  fun x => if x = k then v else f x

/-- The pruning step of rate_limit: the list comprehension keeping the
timestamps req_time with window_start < req_time (a strict comparison in
the source). -/
def pruneLog (log : List ℤ) (window_start : ℤ) : List ℤ :=
  log.filter (fun req_time => window_start < req_time)

/-- The three outcomes of one admission decision: rejection of a blocked
client (HTTP 429 with no retry hint), rate-limit rejection (HTTP 429
carrying retry_after seconds), or admission. -/
inductive RateLimitOutcome where
  | blockedReject : RateLimitOutcome
  | rateReject : ℤ → RateLimitOutcome
  | allow : RateLimitOutcome
deriving DecidableEq, Repr

/-- One admission decision of the rate_limit decorator for client_ip at
time now: reject a blocked client at once; otherwise prune the client's
log to the trailing window, reject when the pruned count reaches
max_requests (adding the client to blocked_ips when the count strictly
exceeds twice max_requests), and otherwise append now and admit. -/
def rate_limit (st : SecurityManager) (client_ip : String)
    (max_requests : ℕ) (window_minutes : ℤ) (now : ℤ) :
    SecurityManager × RateLimitOutcome :=
  if client_ip ∈ st.blocked_ips then (st, .blockedReject)
  else
    let window_start := now - window_minutes * 60
    let pruned := pruneLog (st.rate_limit_storage client_ip) window_start
    if max_requests ≤ pruned.length then
      let blocked := if max_requests * 2 < pruned.length
        then client_ip :: st.blocked_ips else st.blocked_ips
      (⟨updateLog st.rate_limit_storage client_ip pruned, blocked⟩,
        .rateReject (window_minutes * 60))
    else
      (⟨updateLog st.rate_limit_storage client_ip (pruned ++ [now]),
        st.blocked_ips⟩, .allow)

/-- Sequential admission calls of a single client under one fixed policy,
returning the final state and the outcome of each call. -/
def runCalls (st : SecurityManager) (client : String) (max_requests : ℕ)
    (window_minutes : ℤ) : List ℤ → SecurityManager × List RateLimitOutcome
  | [] => (st, [])
  | t :: ts =>
    let r := rate_limit st client max_requests window_minutes t
    let rest := runCalls r.1 client max_requests window_minutes ts
    (rest.1, r.2 :: rest.2)

/-- A trace of admission calls, each with its own client, policy and time
(as successive requests against different endpoints produce), returning
the final state and the outcome of each call. -/
def runTrace (st : SecurityManager) :
    List (String × ℕ × ℤ × ℤ) → SecurityManager × List RateLimitOutcome
  | [] => (st, [])
  | q :: rest =>
    let r := rate_limit st q.1 q.2.1 q.2.2.1 q.2.2.2
    let out := runTrace r.1 rest
    (out.1, r.2 :: out.2)

/-- The state at process start: no logged timestamps, no blocked clients. -/
def emptySM : SecurityManager := ⟨fun _ => [], []⟩

/-! ## SuspiciousPatternDetector (SecurityManager.check_suspicious_activity)

The eleven signature regexes are embedded as decidable matchers over the
lower-cased character list. The ASCII fragments of the word and space
character classes are used (the signature patterns themselves are ASCII). -/

/-- ASCII lower-casing, as str.lower() acts on ASCII letters. -/
def pyLower (c : Char) : Char :=
  if 65 ≤ c.toNat ∧ c.toNat ≤ 90 then Char.ofNat (c.toNat + 32) else c

/-- The regex word class (ASCII fragment): letters, digits, underscore. -/
def isWordChar (c : Char) : Bool :=
  isAlnumAscii c || c == '_'

/-- A literal pattern matches at a position when it is a prefix of the
remaining text. -/
def litAt (pat : List Char) (l : List Char) : Bool :=
  pat.isPrefixOf l

/-- The event-handler pattern (on, one or more word characters, optional
spaces, equals sign) matches at a position. Because word characters,
space characters and the equals sign are pairwise disjoint, the greedy
match is the only possible one. -/
def onHandlerAt : List Char → Bool
  | 'o' :: 'n' :: rest =>
      decide (1 ≤ (rest.takeWhile isWordChar).length) &&
        ((rest.dropWhile isWordChar).dropWhile isPythonSpace).head? == some '='
  | _ => false

/-- The eval-call pattern (eval, optional spaces, open parenthesis)
matches at a position. -/
def evalCallAt (l : List Char) : Bool :=
  (['e','v','a','l'].isPrefixOf l) &&
    ((l.drop 4).dropWhile isPythonSpace).head? == some '('

/-- A two-keyword SQL pattern (first word, one or more spaces, second
word) matches at a position. -/
def sqlPairAt (w1 w2 : List Char) (l : List Char) : Bool :=
  w1.isPrefixOf l &&
    (decide (1 ≤ ((l.drop w1.length).takeWhile isPythonSpace).length) &&
      w2.isPrefixOf ((l.drop w1.length).dropWhile isPythonSpace))

/-- re.search: a position matcher succeeds somewhere in the text. -/
def searchAny (p : List Char → Bool) : List Char → Bool
  | [] => p []
  | c :: rest => p (c :: rest) || searchAny p rest

/-- The fixed ordered signature list of check_suspicious_activity, each
matcher paired with the pattern text the source interpolates into the
reported reason. -/
def suspiciousPatterns : List ((List Char → Bool) × String) :=
  [ (litAt ['<','s','c','r','i','p','t'], "<script"),
    (litAt ['j','a','v','a','s','c','r','i','p','t',':'], "javascript:"),
    (onHandlerAt, "on\\w+\\s*="),
    (evalCallAt, "eval\\s*\\("),
    (litAt ['d','o','c','u','m','e','n','t','.'], "document\\."),
    (litAt ['w','i','n','d','o','w','.'], "window\\."),
    (litAt ['.','.','/'], "\\.\\./"),
    (sqlPairAt ['u','n','i','o','n'] ['s','e','l','e','c','t'], "union\\s+select"),
    (sqlPairAt ['d','r','o','p'] ['t','a','b','l','e'], "drop\\s+table"),
    (sqlPairAt ['i','n','s','e','r','t'] ['i','n','t','o'], "insert\\s+into"),
    (sqlPairAt ['d','e','l','e','t','e'] ['f','r','o','m'], "delete\\s+from") ]

/-- The for-loop of check_suspicious_activity: return on the first
pattern that searches true, else the clean sentinel. -/
def scanLoop (lowered : List Char) :
    List ((List Char → Bool) × String) → Bool × String
  | [] => (false, "Clean")
  | pm :: rest =>
      if searchAny pm.1 lowered
      then (true, "Suspicious pattern detected: " ++ pm.2)
      else scanLoop lowered rest

/-- SecurityManager.check_suspicious_activity: lower-case the input and
scan the fixed signature list in order. A pure function of its input. -/
def check_suspicious_activity (user_input : List Char) : Bool × String :=
  scanLoop (user_input.map pyLower) suspiciousPatterns

/-! ## RequestGate field validation (require_valid_input) -/

/-- The request data the decorator reads: the JSON or form fields. -/
structure GateRequest where
  fields : List (String × List Char)

/-- Field lookup (dict read). -/
def getField (r : GateRequest) (name : String) : Option (List Char) :=
  r.fields.lookup name

/-- Field overwrite (dict assignment of the cleaned value). -/
def setField (r : GateRequest) (name : String) (v : List Char) :
    GateRequest :=
  ⟨r.fields.map (fun p => if p.1 = name then (p.1, v) else p)⟩

/-- A gate outcome: an error response (body message and status) or the
downstream handler's result. -/
inductive GateOutcome (α : Type) where
  | errorResponse (body : String) (status : ℕ) : GateOutcome α
  | handled (a : α) : GateOutcome α
deriving DecidableEq

/-- The require_valid_input decorator around a handler f: reject a
missing field with 400; scan the raw value and reject suspicious input
with the fixed generic 400 body; otherwise overwrite the field with the
sanitized value and invoke the handler. -/
def require_valid_input {α : Type} (field_name : String) (max_length : ℕ)
    (allow_special_chars : Bool) (f : GateRequest → α) (req : GateRequest) :
    GateOutcome α :=
  match getField req field_name with
  | none => .errorResponse ("Missing required field: " ++ field_name) 400
  | some value =>
      if (check_suspicious_activity value).1
      then .errorResponse "Invalid input detected" 400
      else .handled (f (setField req field_name
        (validate_input value max_length allow_special_chars)))

/-! ## Helper lemmas -/

theorem pyStrip_sublist (l : List Char) : (pyStrip l).Sublist l := by
  have h1 : (l.dropWhile isPythonSpace).Sublist l := List.dropWhile_sublist _
  have h2 : ((l.dropWhile isPythonSpace).reverse.dropWhile
      isPythonSpace).Sublist (l.dropWhile isPythonSpace).reverse :=
    List.dropWhile_sublist _
  have h3 := h2.reverse
  rw [List.reverse_reverse] at h3
  exact h3.trans h1

theorem length_pyStrip_le (l : List Char) : (pyStrip l).length ≤ l.length :=
  (pyStrip_sublist l).length_le

theorem mem_of_mem_pyStrip {c : Char} {l : List Char} (h : c ∈ pyStrip l) :
    c ∈ l :=
  List.Sublist.mem h (pyStrip_sublist l)

/-- The eight-character denylist exactly as the specification words it
(it omits the semicolon that the source's character class also holds). -/
def denylistSpec : List Char :=
  ['<', '>', Char.ofNat 34, Char.ofNat 39, '(', ')', '&', '+']

theorem denylistSpec_subset : denylistSpec ⊆ specialCharList := by decide

/-! ## Claim theorems: sanitizer and symbol validator -/

/-- C6: for every input string, every max_length n > 0 and every flag, the
sanitized result has length at most n, and when allow_special_chars is
false it contains none of the eight denylisted characters of the
specification. -/
theorem c6_sanitize_length_and_denylist (s : List Char) (n : ℕ) (flag : Bool)
    (hn : 0 < n) :
    (validate_input s n flag).length ≤ n ∧
      (flag = false → ∀ c ∈ validate_input s n flag, c ∉ denylistSpec) := by
  by_cases hs : s = []
  · subst hs
    refine ⟨by simp [validate_input], ?_⟩
    intro _ c hc
    simp [validate_input] at hc
  · rw [validate_input, if_neg hs]
    set cl := s.filter (fun c => !isControlChar c) with hcl
    set c2 := if n < cl.length then cl.take n else cl with hc2
    set c3 := if flag then c2
      else c2.filter (fun c => !specialCharList.contains c) with hc3
    have h2 : c2.length ≤ n := by
      by_cases h : n < cl.length
      · simp [hc2, h, List.length_take]
      · rw [hc2, if_neg h]
        omega
    have h3 : c3.length ≤ c2.length := by
      by_cases hf : flag
      · simp [hc3, hf]
      · simp [hc3, hf, List.length_filter_le]
    refine ⟨(length_pyStrip_le c3).trans (h3.trans h2), ?_⟩
    intro hflag c hc hmem
    subst hflag
    have hc3' : c ∈ c3 := mem_of_mem_pyStrip hc
    rw [hc3, if_neg (by simp)] at hc3'
    have hcontains := (List.mem_filter.mp hc3').2
    have hnotin : c ∉ specialCharList := by simp_all
    exact hnotin (denylistSpec_subset hmem)

/-- Closed instance of C6 discharging its hypothesis at n = 10. -/
theorem c6_sanitize_length_and_denylist_witness :
    (validate_input ['a', '<', 'b'] 10 false).length ≤ 10 ∧
      (false = false →
        ∀ c ∈ validate_input ['a', '<', 'b'] 10 false, c ∉ denylistSpec) :=
  c6_sanitize_length_and_denylist ['a', '<', 'b'] 10 false (by decide)

/-- The sanitize pipeline exactly as the specification words it: remove
control characters, truncate to max_length, then when special characters
are disallowed remove exactly the specification's eight characters and
no others, then strip; empty input returns empty immediately. -/
def sanitizeSpecEight (s : List Char) (n : ℕ) (flag : Bool) : List Char :=
  if s = [] then []
  else
    pyStrip (if flag then (s.filter (fun c => !isControlChar c)).take n
      else ((s.filter (fun c => !isControlChar c)).take n).filter
        (fun c => !denylistSpec.contains c))

/-- The same pipeline with the source's nine-character denylist (the
eight of the specification plus the semicolon). -/
def sanitizeSpecNine (s : List Char) (n : ℕ) (flag : Bool) : List Char :=
  if s = [] then []
  else
    pyStrip (if flag then (s.filter (fun c => !isControlChar c)).take n
      else ((s.filter (fun c => !isControlChar c)).take n).filter
        (fun c => !specialCharList.contains c))

/-- C7 counterexample: on the one-character string of a semicolon, with
special characters disallowed, the source removes the semicolon while
the specification's eight-character pipeline keeps it, so the two
disagree at this input. -/
theorem c7_denylist_counterexample :
    validate_input [';'] 10 false = [] ∧
      sanitizeSpecEight [';'] 10 false = [';'] ∧
      validate_input [';'] 10 false ≠ sanitizeSpecEight [';'] 10 false := by
  decide

/-- C7 amended: validate_input equals the specification's pipeline once
step (c) removes the semicolon as well, i.e. exactly the nine characters
of the source's character class; empty input still returns the empty
string immediately and the function is total. -/
theorem c7_amended_pipeline (s : List Char) (n : ℕ) (flag : Bool) :
    validate_input s n flag = sanitizeSpecNine s n flag := by
  by_cases hs : s = []
  · simp [hs, validate_input, sanitizeSpecNine]
  · rw [validate_input, if_neg hs, sanitizeSpecNine, if_neg hs]
    by_cases h : n < (s.filter (fun c => !isControlChar c)).length
    · simp only [if_pos h]
    · simp only [if_neg h,
        List.take_of_length_le (Nat.le_of_not_lt h)]

/-- C8 counterexample: the Python dollar anchor matches just before a
trailing newline, so validate_symbol accepts the five-character input
AAPL followed by a newline, which the claim requires to be invalid. -/
theorem c8_trailing_newline_counterexample :
    validate_symbol ['A', 'A', 'P', 'L', Char.ofNat 10] = true := by
  decide

/-- C8 amended: validate_symbol accepts exactly the strings that are 1 to
10 ASCII alphanumerics, optionally followed by one trailing newline; in
particular the empty string and any string with a dot, hyphen or other
non-alphanumeric character elsewhere remain invalid. -/
theorem c8_amended_symbol_shape (s : List Char) :
    validate_symbol s = true ↔
      ∃ body : List Char, (s = body ∨ s = body ++ [Char.ofNat 10]) ∧
        1 ≤ body.length ∧ body.length ≤ 10 ∧
        ∀ c ∈ body, isAlnumAscii c = true := by
  unfold validate_symbol
  by_cases hs : s = []
  · subst hs
    simp only [if_pos rfl]
    constructor
    · intro h
      exact absurd h (by decide)
    · rintro ⟨body, hb | hb, h1, _, _⟩
      · rw [← hb] at h1
        exact absurd h1 (by decide)
      · exact absurd hb.symm (by simp)
  · rw [if_neg hs]
    by_cases hl : s.getLast? = some (Char.ofNat 10)
    · simp only [if_pos hl, Bool.and_eq_true, decide_eq_true_eq,
        List.all_eq_true]
      have hsplit : s.dropLast ++ [Char.ofNat 10] = s := by
        have h1 := List.dropLast_append_getLast hs
        have h2 := List.getLast?_eq_getLast s hs
        rw [hl] at h2
        rw [(Option.some.inj h2).symm] at h1
        exact h1
      constructor
      · rintro ⟨⟨h1, h2⟩, h3⟩
        exact ⟨s.dropLast, Or.inr hsplit.symm, h1, h2, h3⟩
      · rintro ⟨body, hb | hb, h1, h2, h3⟩
        · exfalso
          rw [hb] at hl
          have hmem : Char.ofNat 10 ∈ body := by
            obtain ⟨hne, hx⟩ :=
              List.mem_getLast?_eq_getLast (Option.mem_def.mpr hl)
            rw [hx]
            exact List.getLast_mem hne
          have := h3 _ hmem
          exact absurd this (by decide)
        · subst hb
          rw [List.dropLast_concat]
          exact ⟨⟨h1, h2⟩, h3⟩
    · simp only [if_neg hl, Bool.and_eq_true, decide_eq_true_eq,
        List.all_eq_true]
      constructor
      · rintro ⟨⟨h1, h2⟩, h3⟩
        exact ⟨s, Or.inl rfl, h1, h2, h3⟩
      · rintro ⟨body, hb | hb, h1, h2, h3⟩
        · subst hb
          exact ⟨⟨h1, h2⟩, h3⟩
        · exfalso
          subst hb
          exact hl (List.getLast?_concat body)

/-! ## Claim theorems: suspicious-pattern detector -/

theorem scanLoop_spec (lowered : List Char)
    (ps : List ((List Char → Bool) × String)) :
    ((scanLoop lowered ps).1 = false →
      (scanLoop lowered ps).2 = "Clean" ∧
        ∀ pm ∈ ps, searchAny pm.1 lowered = false) ∧
    ((scanLoop lowered ps).1 = true →
      ∃ pre pm post, ps = pre ++ pm :: post ∧
        searchAny pm.1 lowered = true ∧
        (∀ q ∈ pre, searchAny q.1 lowered = false) ∧
        (scanLoop lowered ps).2 = "Suspicious pattern detected: " ++ pm.2) := by
  induction ps with
  | nil =>
    refine ⟨fun _ => ⟨rfl, by simp⟩, fun h => ?_⟩
    exact absurd h (by simp [scanLoop])
  | cons pm rest ih =>
    by_cases h : searchAny pm.1 lowered
    · refine ⟨fun hf => ?_, fun _ => ?_⟩
      · rw [scanLoop, if_pos h] at hf
        exact absurd hf (by simp)
      · exact ⟨[], pm, rest, rfl, h, by simp,
          by rw [scanLoop, if_pos h]⟩
    · have heq : scanLoop lowered (pm :: rest) = scanLoop lowered rest := by
        rw [scanLoop, if_neg h]
      rw [heq]
      refine ⟨fun hf => ?_, fun ht => ?_⟩
      · obtain ⟨hc, hall⟩ := ih.1 hf
        refine ⟨hc, ?_⟩
        intro q hq
        rcases List.mem_cons.mp hq with hq | hq
        · rw [hq]
          exact Bool.not_eq_true _ ▸ (by simpa using h)
        · exact hall q hq
      · obtain ⟨pre, pm2, post, hps, hm, hpre, hr⟩ := ih.2 ht
        refine ⟨pm :: pre, pm2, post, by simp [hps], hm, ?_, hr⟩
        intro q hq
        rcases List.mem_cons.mp hq with hq | hq
        · rw [hq]
          simpa using h
        · exact hpre q hq

/-- C9: check_suspicious_activity is a pure function of its input; on a
clean input it returns false with the Clean sentinel and no signature of
the fixed ordered list matches the lower-cased input, and on a
suspicious input it returns true reporting the first signature, in list
order, that matches the lower-cased input. -/
theorem c9_scan_first_match (s : List Char) :
    ((check_suspicious_activity s).1 = false →
      (check_suspicious_activity s).2 = "Clean" ∧
        ∀ pm ∈ suspiciousPatterns,
          searchAny pm.1 (s.map pyLower) = false) ∧
    ((check_suspicious_activity s).1 = true →
      ∃ pre pm post, suspiciousPatterns = pre ++ pm :: post ∧
        searchAny pm.1 (s.map pyLower) = true ∧
        (∀ q ∈ pre, searchAny q.1 (s.map pyLower) = false) ∧
        (check_suspicious_activity s).2 =
          "Suspicious pattern detected: " ++ pm.2) :=
  scanLoop_spec (s.map pyLower) suspiciousPatterns

/-! ## Claim theorems: field-validation gate -/

/-- C10: the field-validation gate rejects a missing required field with
a 400 missing-field error; otherwise it scans the raw, unsanitized field
value and, when the scan is suspicious, rejects with the fixed generic
400 body that never names the matched pattern; only when the scan is
clean does it overwrite the field with the sanitized value before
invoking the downstream handler, so the detector sees the raw value and
the handler sees the sanitized value. -/
theorem c10_gate_order (α : Type) (field_name : String) (n : ℕ)
    (flag : Bool) (f : GateRequest → α) (req : GateRequest) :
    (getField req field_name = none →
      require_valid_input field_name n flag f req =
        .errorResponse ("Missing required field: " ++ field_name) 400) ∧
    (∀ v, getField req field_name = some v →
      (check_suspicious_activity v).1 = true →
      require_valid_input field_name n flag f req =
        .errorResponse "Invalid input detected" 400) ∧
    (∀ v, getField req field_name = some v →
      (check_suspicious_activity v).1 = false →
      require_valid_input field_name n flag f req =
        .handled (f (setField req field_name (validate_input v n flag)))) := by
  refine ⟨fun hnone => ?_, fun v hv hsusp => ?_, fun v hv hclean => ?_⟩
  · rw [require_valid_input, hnone]
  · rw [require_valid_input, hv]
    simp [hsusp]
  · rw [require_valid_input, hv]
    simp [hclean]

/-! ## Claim theorems: rate limiter -/

/-- C4: the timestamp log and the blocked set are keyed by the client
identity alone and shared across endpoints, so mixed-endpoint sequential
traffic of one client escalates to a permanent block: eleven requests
admitted under the profile endpoint's policy of 30 per minute, followed
by one request under the analysis endpoint's policy of 5 per minute,
leave a pruned count of 11 > 2 × 5, so the twelfth call rejects and
permanently blocks the client; moreover an admission under one policy
never touches another client's log. -/
theorem c4_mixed_endpoint_escalation :
    ((runTrace emptySM
        [("c", 30, 1, 0), ("c", 30, 1, 1), ("c", 30, 1, 2), ("c", 30, 1, 3),
         ("c", 30, 1, 4), ("c", 30, 1, 5), ("c", 30, 1, 6), ("c", 30, 1, 7),
         ("c", 30, 1, 8), ("c", 30, 1, 9), ("c", 30, 1, 10),
         ("c", 5, 1, 11)]).2 =
      List.replicate 11 RateLimitOutcome.allow ++
        [RateLimitOutcome.rateReject 60] ∧
    "c" ∈ (runTrace emptySM
        [("c", 30, 1, 0), ("c", 30, 1, 1), ("c", 30, 1, 2), ("c", 30, 1, 3),
         ("c", 30, 1, 4), ("c", 30, 1, 5), ("c", 30, 1, 6), ("c", 30, 1, 7),
         ("c", 30, 1, 8), ("c", 30, 1, 9), ("c", 30, 1, 10),
         ("c", 5, 1, 11)]).1.blocked_ips) ∧
    (∀ st : SecurityManager, ∀ client other : String, ∀ mr : ℕ, ∀ w t : ℤ,
      other ≠ client →
      (rate_limit st client mr w t).1.rate_limit_storage other =
        st.rate_limit_storage other) := by
  refine ⟨by decide, ?_⟩
  intro st client other mr w t hne
  rw [rate_limit]
  by_cases hb : client ∈ st.blocked_ips
  · rw [if_pos hb]
  · rw [if_neg hb]
    by_cases hc : mr ≤ (pruneLog (st.rate_limit_storage client)
        (t - w * 60)).length
    · simp only [if_pos hc, updateLog, if_neg hne]
    · simp only [if_neg hc, updateLog, if_neg hne]

/-- C5 counterexample: a log entry exactly at window_start is dropped by
the pruning step (the source compares strictly), while the claim
requires it to be kept: with one logged timestamp 0, a window of one
minute and now = 60, window_start is 0 and the admitted call leaves the
log at just the new timestamp, not the boundary entry. -/
theorem c5_boundary_counterexample :
    pruneLog [(0 : ℤ)] 0 = [] ∧
      (rate_limit ⟨fun _ => [(0 : ℤ)], []⟩ "c" 10 1 60).1.rate_limit_storage
          "c" = [60] ∧
      (0 : ℤ) ∉ (rate_limit ⟨fun _ => [(0 : ℤ)], []⟩ "c" 10 1
          60).1.rate_limit_storage "c" := by
  decide

/-- C5 amended: for a non-blocked client the pruning step of an admit
call keeps exactly the log entries with timestamp strictly greater than
window_start = now − window_minutes × 60 and drops the rest, a boundary
entry equal to window_start included; when every logged timestamp is at
most now, the pruned log therefore lies in the half-open interval from
now − window (excluded) to now (included), and the log the admit call
leaves behind is the pruned log, plus now when the call admits. -/
theorem c5_amended_strict_pruning (st : SecurityManager) (client : String)
    (mr : ℕ) (w now : ℤ)
    (hb : client ∉ st.blocked_ips)
    (hle : ∀ e ∈ st.rate_limit_storage client, e ≤ now) :
    (∀ t : ℤ, t ∈ pruneLog (st.rate_limit_storage client) (now - w * 60) ↔
      t ∈ st.rate_limit_storage client ∧ now - w * 60 < t) ∧
    (∀ u ∈ pruneLog (st.rate_limit_storage client) (now - w * 60),
      now - w * 60 < u ∧ u ≤ now) ∧
    (rate_limit st client mr w now).1.rate_limit_storage client =
      pruneLog (st.rate_limit_storage client) (now - w * 60) ++
        (if (rate_limit st client mr w now).2 = RateLimitOutcome.allow
          then [now] else []) := by
  have hmem : ∀ t : ℤ,
      t ∈ pruneLog (st.rate_limit_storage client) (now - w * 60) ↔
        t ∈ st.rate_limit_storage client ∧ now - w * 60 < t := by
    intro t
    simp [pruneLog]
  refine ⟨hmem, fun u hu => ?_, ?_⟩
  · obtain ⟨hu1, hu2⟩ := (hmem u).mp hu
    exact ⟨hu2, hle u hu1⟩
  · rw [rate_limit, if_neg hb]
    by_cases hc : mr ≤ (pruneLog (st.rate_limit_storage client)
        (now - w * 60)).length
    · simp [hc, updateLog]
    · simp [hc, updateLog]

/-- Closed instance of C5's amended theorem at a concrete state. -/
theorem c5_amended_strict_pruning_witness :
    (∀ t : ℤ, t ∈ pruneLog ((⟨fun _ => [(0 : ℤ), 30], []⟩ :
        SecurityManager).rate_limit_storage "c") (60 - 1 * 60) ↔
      t ∈ (⟨fun _ => [(0 : ℤ), 30], []⟩ :
        SecurityManager).rate_limit_storage "c" ∧ 60 - 1 * 60 < t) ∧
    (∀ u ∈ pruneLog ((⟨fun _ => [(0 : ℤ), 30], []⟩ :
        SecurityManager).rate_limit_storage "c") (60 - 1 * 60),
      60 - 1 * 60 < u ∧ u ≤ 60) ∧
    (rate_limit (⟨fun _ => [(0 : ℤ), 30], []⟩ : SecurityManager) "c" 10 1
        60).1.rate_limit_storage "c" =
      pruneLog ((⟨fun _ => [(0 : ℤ), 30], []⟩ :
          SecurityManager).rate_limit_storage "c") (60 - 1 * 60) ++
        (if (rate_limit (⟨fun _ => [(0 : ℤ), 30], []⟩ : SecurityManager)
            "c" 10 1 60).2 = RateLimitOutcome.allow then [60] else []) :=
  c5_amended_strict_pruning ⟨fun _ => [(0 : ℤ), 30], []⟩ "c" 10 1 60
    (by decide) (by decide)

/-! ## Rate-limiter helper lemmas -/

theorem rate_limit_blocked (st : SecurityManager) (client : String)
    (mr : ℕ) (w t : ℤ) (h : client ∈ st.blocked_ips) :
    rate_limit st client mr w t = (st, RateLimitOutcome.blockedReject) := by
  rw [rate_limit, if_pos h]

theorem blocked_mono_step (st : SecurityManager) (c client : String)
    (mr : ℕ) (w t : ℤ) (h : c ∈ st.blocked_ips) :
    c ∈ (rate_limit st client mr w t).1.blocked_ips := by
  by_cases hb : client ∈ st.blocked_ips
  · rw [rate_limit_blocked st client mr w t hb]
    exact h
  · simp only [rate_limit, if_neg hb]
    by_cases hc : mr ≤ (pruneLog (st.rate_limit_storage client)
        (t - w * 60)).length
    · simp only [if_pos hc]
      by_cases he : mr * 2 < (pruneLog (st.rate_limit_storage client)
          (t - w * 60)).length
      · simp only [if_pos he]
        exact List.mem_cons_of_mem _ h
      · simp only [if_neg he]
        exact h
    · simp only [if_neg hc]
      exact h

theorem blocked_mono_trace (st : SecurityManager) (c : String)
    (tr : List (String × ℕ × ℤ × ℤ)) (h : c ∈ st.blocked_ips) :
    c ∈ (runTrace st tr).1.blocked_ips := by
  induction tr generalizing st with
  | nil => exact h
  | cons q rest ih =>
    simp only [runTrace]
    exact ih _ (blocked_mono_step st c q.1 q.2.1 q.2.2.1 q.2.2.2 h)

theorem rate_limit_single_inv (st : SecurityManager) (client : String)
    (mr : ℕ) (w t : ℤ) (hb : client ∉ st.blocked_ips)
    (hlen : (st.rate_limit_storage client).length ≤ mr) :
    ((rate_limit st client mr w t).1.rate_limit_storage client).length ≤ mr ∧
      client ∉ (rate_limit st client mr w t).1.blocked_ips := by
  have hplen : (pruneLog (st.rate_limit_storage client)
      (t - w * 60)).length ≤ mr :=
    le_trans (List.length_filter_le _ _) hlen
  by_cases hc : mr ≤ (pruneLog (st.rate_limit_storage client)
      (t - w * 60)).length
  · have hne : ¬ mr * 2 < (pruneLog (st.rate_limit_storage client)
        (t - w * 60)).length := by omega
    simp only [rate_limit, if_neg hb, if_pos hc, if_neg hne, updateLog,
      eq_self_iff_true, if_true]
    exact ⟨hplen, hb⟩
  · simp only [rate_limit, if_neg hb, if_neg hc, updateLog,
      eq_self_iff_true, if_true]
    refine ⟨?_, hb⟩
    rw [List.length_append]
    simp only [List.length_cons, List.length_nil]
    omega

theorem runCalls_inv (client : String) (mr : ℕ) (w : ℤ) (ts : List ℤ) :
    ∀ st : SecurityManager, client ∉ st.blocked_ips →
    (st.rate_limit_storage client).length ≤ mr →
    (((runCalls st client mr w ts).1.rate_limit_storage client).length ≤ mr ∧
      client ∉ (runCalls st client mr w ts).1.blocked_ips) := by
  induction ts with
  | nil =>
    intro st hb hlen
    exact ⟨hlen, hb⟩
  | cons t ts ih =>
    intro st hb hlen
    simp only [runCalls]
    obtain ⟨h1, h2⟩ := rate_limit_single_inv st client mr w t hb hlen
    exact ih _ h2 h1

theorem reject_no_append (st : SecurityManager) (c : String) (mr : ℕ)
    (w t : ℤ) (hb : c ∉ st.blocked_ips)
    (hr : (rate_limit st c mr w t).2 ≠ RateLimitOutcome.allow) :
    (rate_limit st c mr w t).1.rate_limit_storage c =
      pruneLog (st.rate_limit_storage c) (t - w * 60) := by
  by_cases hc : mr ≤ (pruneLog (st.rate_limit_storage c)
      (t - w * 60)).length
  · simp only [rate_limit, if_neg hb, if_pos hc, updateLog,
      eq_self_iff_true, if_true]
  · exfalso
    apply hr
    simp only [rate_limit, if_neg hb, if_neg hc]

theorem runCalls_within_window_all_allow (client : String) (mr : ℕ)
    (w lo hi : ℤ) (hwin : hi < lo + w * 60) :
    ∀ ts : List ℤ, (∀ t ∈ ts, lo ≤ t ∧ t ≤ hi) →
    ∀ st : SecurityManager, client ∉ st.blocked_ips →
    (∀ e ∈ st.rate_limit_storage client, lo ≤ e ∧ e ≤ hi) →
    (st.rate_limit_storage client).length + ts.length ≤ mr →
    ((runCalls st client mr w ts).2 =
        List.replicate ts.length RateLimitOutcome.allow ∧
      (runCalls st client mr w ts).1.rate_limit_storage client =
        st.rate_limit_storage client ++ ts ∧
      (runCalls st client mr w ts).1.blocked_ips = st.blocked_ips) := by
  intro ts
  induction ts with
  | nil =>
    intro _ st _ _ _
    exact ⟨rfl, (List.append_nil _).symm, rfl⟩
  | cons t ts ih =>
    intro hts st hb hacc hlen
    have hkeep : pruneLog (st.rate_limit_storage client) (t - w * 60) =
        st.rate_limit_storage client := by
      rw [pruneLog, List.filter_eq_self]
      intro e he
      have h1 := hacc e he
      have h2 := hts t (List.mem_cons_self t ts)
      simp only [decide_eq_true_eq]
      omega
    have hlt : ¬ mr ≤ (st.rate_limit_storage client).length := by
      simp only [List.length_cons] at hlen
      omega
    have hstep : rate_limit st client mr w t =
        (⟨updateLog st.rate_limit_storage client
            (st.rate_limit_storage client ++ [t]), st.blocked_ips⟩,
          RateLimitOutcome.allow) := by
      simp only [rate_limit, if_neg hb, hkeep, if_neg hlt]
    simp only [runCalls, hstep]
    have hs1 : (updateLog st.rate_limit_storage client
        (st.rate_limit_storage client ++ [t])) client =
        st.rate_limit_storage client ++ [t] := by
      simp [updateLog]
    obtain ⟨o1, o2, o3⟩ := ih (fun u hu => hts u (List.mem_cons_of_mem t hu))
      ⟨updateLog st.rate_limit_storage client
        (st.rate_limit_storage client ++ [t]), st.blocked_ips⟩
      hb
      (by
        dsimp only
        rw [hs1]
        intro e he
        rcases List.mem_append.mp he with he | he
        · exact hacc e he
        · have : e = t := by simpa using he
          rw [this]
          exact hts t (List.mem_cons_self t ts))
      (by
        dsimp only
        rw [hs1, List.length_append]
        simp only [List.length_cons, List.length_nil] at hlen ⊢
        omega)
    refine ⟨?_, ?_, o3⟩
    · rw [o1, List.length_cons, List.replicate_succ]
    · rw [o2]
      dsimp only
      rw [hs1, List.append_assoc]
      rfl

/-! ## Claim theorems: rate limiter (general) -/

/-- C1: from a state where the client is not blocked and has no
timestamps inside the window that precedes the burst, n admission calls
(n at least 1) at times inside one window under max_requests = n all
admit, each appending its timestamp to the client's log, and one more
call inside the same window rejects with retry_after = window_minutes
times 60 seconds. -/
theorem c1_admit_n_then_reject (st : SecurityManager) (client : String)
    (n : ℕ) (w lo hi : ℤ) (ts : List ℤ) (tf : ℤ)
    (hn : 1 ≤ n)
    (hb : client ∉ st.blocked_ips)
    (hold : ∀ e ∈ st.rate_limit_storage client, e ≤ lo - w * 60)
    (hts : ∀ t ∈ ts, lo ≤ t ∧ t ≤ hi)
    (htf : lo ≤ tf ∧ tf ≤ hi)
    (hwin : hi < lo + w * 60)
    (hlen : ts.length = n) :
    (runCalls st client n w ts).2 =
        List.replicate n RateLimitOutcome.allow ∧
      (runCalls st client n w ts).1.rate_limit_storage client = ts ∧
      (rate_limit (runCalls st client n w ts).1 client n w tf).2 =
        RateLimitOutcome.rateReject (w * 60) := by
  match ts, hlen with
  | [], hlen =>
    simp only [List.length_nil] at hlen
    omega
  | t0 :: ts1, hlen =>
    have ht0 := hts t0 (List.mem_cons_self t0 ts1)
    have hkill : pruneLog (st.rate_limit_storage client) (t0 - w * 60) =
        [] := by
      rw [pruneLog, List.filter_eq_nil_iff]
      intro e he
      have h1 := hold e he
      simp only [decide_eq_true_eq]
      omega
    have hn0 : ¬ (n : ℕ) ≤ (pruneLog (st.rate_limit_storage client)
        (t0 - w * 60)).length := by
      rw [hkill]
      simp only [List.length_nil]
      omega
    have hstep : rate_limit st client n w t0 =
        (⟨updateLog st.rate_limit_storage client
            (pruneLog (st.rate_limit_storage client) (t0 - w * 60) ++ [t0]),
          st.blocked_ips⟩, RateLimitOutcome.allow) := by
      simp only [rate_limit, if_neg hb, if_neg hn0]
    have hs1 : (updateLog st.rate_limit_storage client
        (pruneLog (st.rate_limit_storage client) (t0 - w * 60) ++ [t0]))
          client = [t0] := by
      simp [updateLog, hkill]
    obtain ⟨o1, o2, o3⟩ := runCalls_within_window_all_allow client n w lo hi
      hwin ts1 (fun u hu => hts u (List.mem_cons_of_mem t0 hu))
      ⟨updateLog st.rate_limit_storage client
        (pruneLog (st.rate_limit_storage client) (t0 - w * 60) ++ [t0]),
        st.blocked_ips⟩
      hb
      (by
        dsimp only
        rw [hs1]
        intro e he
        have : e = t0 := by simpa using he
        rw [this]
        exact ht0)
      (by
        dsimp only
        rw [hs1]
        simp only [List.length_cons] at hlen
        simp only [List.length_cons, List.length_nil]
        omega)
    have hstore : (runCalls st client n w (t0 :: ts1)).1.rate_limit_storage
        client = t0 :: ts1 := by
      simp only [runCalls, hstep]
      rw [o2]
      dsimp only
      rw [hs1]
      rfl
    have hblocked : (runCalls st client n w (t0 :: ts1)).1.blocked_ips =
        st.blocked_ips := by
      simp only [runCalls, hstep]
      exact o3
    refine ⟨?_, hstore, ?_⟩
    · simp only [runCalls, hstep]
      rw [o1]
      simp only [List.length_cons] at hlen
      rw [← hlen, List.replicate_succ]
    · have hb2 : client ∉ (runCalls st client n w (t0 :: ts1)).1.blocked_ips := by
        rw [hblocked]
        exact hb
      have hkeep2 : pruneLog ((runCalls st client n w
          (t0 :: ts1)).1.rate_limit_storage client) (tf - w * 60) =
          t0 :: ts1 := by
        rw [hstore, pruneLog, List.filter_eq_self]
        intro e he
        have h1 : lo ≤ e ∧ e ≤ hi := hts e he
        simp only [decide_eq_true_eq]
        omega
      have hge : (n : ℕ) ≤ (pruneLog ((runCalls st client n w
          (t0 :: ts1)).1.rate_limit_storage client) (tf - w * 60)).length := by
        rw [hkeep2]
        simp only [List.length_cons] at hlen
        simp only [List.length_cons]
        omega
      simp only [rate_limit, if_neg hb2, if_pos hge]

/-- Closed instance of C1 at n = 2: two admitted calls then a rejected
third inside one minute. -/
theorem c1_admit_n_then_reject_witness :
    (runCalls emptySM "c" 2 1 [0, 5]).2 =
        List.replicate 2 RateLimitOutcome.allow ∧
      (runCalls emptySM "c" 2 1 [0, 5]).1.rate_limit_storage "c" = [0, 5] ∧
      (rate_limit (runCalls emptySM "c" 2 1 [0, 5]).1 "c" 2 1 10).2 =
        RateLimitOutcome.rateReject (1 * 60) :=
  c1_admit_n_then_reject emptySM "c" 2 1 0 10 [0, 5] 10
    (by decide) (by decide) (by decide) (by decide) (by decide) (by decide)
    (by decide)

/-- C2: a pruned in-window count strictly above twice max_requests makes
the admit call reject and puts the client into the blocked set; any admit
call of a blocked client, under any policy and at any later time, returns
the bare blocked rejection (no retry hint) and leaves the state
unchanged; and no trace of admission calls ever removes a client from the
blocked set. -/
theorem c2_escalation_blocks_permanently (st : SecurityManager)
    (client : String) (mr : ℕ) (w now : ℤ)
    (h : mr * 2 <
      (pruneLog (st.rate_limit_storage client) (now - w * 60)).length) :
    ((rate_limit st client mr w now).2 ≠ RateLimitOutcome.allow ∧
      client ∈ (rate_limit st client mr w now).1.blocked_ips) ∧
    (∀ st2 : SecurityManager, ∀ c : String, ∀ mr2 : ℕ, ∀ w2 t2 : ℤ,
      c ∈ st2.blocked_ips →
      rate_limit st2 c mr2 w2 t2 = (st2, RateLimitOutcome.blockedReject)) ∧
    (∀ st2 : SecurityManager, ∀ c : String,
      ∀ tr : List (String × ℕ × ℤ × ℤ),
      c ∈ st2.blocked_ips → c ∈ (runTrace st2 tr).1.blocked_ips) := by
  refine ⟨?_, fun st2 c mr2 w2 t2 hb => rate_limit_blocked st2 c mr2 w2 t2 hb,
    fun st2 c tr hb => blocked_mono_trace st2 c tr hb⟩
  by_cases hb : client ∈ st.blocked_ips
  · rw [rate_limit_blocked st client mr w now hb]
    exact ⟨by simp, hb⟩
  · have hcount : mr ≤ (pruneLog (st.rate_limit_storage client)
        (now - w * 60)).length := by omega
    simp only [rate_limit, if_neg hb, if_pos hcount, if_pos h]
    exact ⟨by simp, List.mem_cons_self _ _⟩

/-- Closed instance of C2 at a state holding five in-window timestamps
under max_requests = 2. -/
theorem c2_escalation_blocks_permanently_witness :
    ((rate_limit ⟨fun _ => [50, 51, 52, 53, 54], []⟩ "c" 2 1 60).2 ≠
        RateLimitOutcome.allow ∧
      "c" ∈ (rate_limit ⟨fun _ => [50, 51, 52, 53, 54], []⟩ "c" 2 1
        60).1.blocked_ips) ∧
    (∀ st2 : SecurityManager, ∀ c : String, ∀ mr2 : ℕ, ∀ w2 t2 : ℤ,
      c ∈ st2.blocked_ips →
      rate_limit st2 c mr2 w2 t2 = (st2, RateLimitOutcome.blockedReject)) ∧
    (∀ st2 : SecurityManager, ∀ c : String,
      ∀ tr : List (String × ℕ × ℤ × ℤ),
      c ∈ st2.blocked_ips → c ∈ (runTrace st2 tr).1.blocked_ips) :=
  c2_escalation_blocks_permanently ⟨fun _ => [50, 51, 52, 53, 54], []⟩
    "c" 2 1 60 (by decide)

/-- C3: under the literal algorithm a single client's sequential calls
under one fixed policy, starting from an empty log, never leave more than
max_requests logged timestamps and never put the client into the blocked
set (the escalation condition is unreachable), because a rejected call
never appends a timestamp: for a non-blocked client any rejected call
leaves exactly the pruned log behind. -/
theorem c3_literal_algorithm_never_escalates (st : SecurityManager)
    (client : String) (mr : ℕ) (w : ℤ) (ts : List ℤ)
    (hb : client ∉ st.blocked_ips)
    (h0 : st.rate_limit_storage client = []) :
    (((runCalls st client mr w ts).1.rate_limit_storage client).length ≤ mr ∧
      client ∉ (runCalls st client mr w ts).1.blocked_ips) ∧
    (∀ st2 : SecurityManager, ∀ c : String, ∀ mr2 : ℕ, ∀ w2 t2 : ℤ,
      c ∉ st2.blocked_ips →
      (rate_limit st2 c mr2 w2 t2).2 ≠ RateLimitOutcome.allow →
      (rate_limit st2 c mr2 w2 t2).1.rate_limit_storage c =
        pruneLog (st2.rate_limit_storage c) (t2 - w2 * 60)) := by
  refine ⟨?_, fun st2 c mr2 w2 t2 hb2 hr =>
    reject_no_append st2 c mr2 w2 t2 hb2 hr⟩
  exact runCalls_inv client mr w ts st hb (by rw [h0]; exact Nat.zero_le mr)

/-- Closed instance of C3: five sequential calls under max_requests = 3
from the empty state. -/
theorem c3_literal_algorithm_never_escalates_witness :
    (((runCalls emptySM "c" 3 1 [0, 1, 2, 3, 4]).1.rate_limit_storage
        "c").length ≤ 3 ∧
      "c" ∉ (runCalls emptySM "c" 3 1 [0, 1, 2, 3, 4]).1.blocked_ips) ∧
    (∀ st2 : SecurityManager, ∀ c : String, ∀ mr2 : ℕ, ∀ w2 t2 : ℤ,
      c ∉ st2.blocked_ips →
      (rate_limit st2 c mr2 w2 t2).2 ≠ RateLimitOutcome.allow →
      (rate_limit st2 c mr2 w2 t2).1.rate_limit_storage c =
        pruneLog (st2.rate_limit_storage c) (t2 - w2 * 60)) :=
  c3_literal_algorithm_never_escalates emptySM "c" 3 1 [0, 1, 2, 3, 4]
    (by decide) rfl

end DueDiligence
